import Mathlib

/-!
Verification of the annotation module of cbindgen
(src/bindgen/ir/annotation.rs): the comment-directive scanner and parser,
the attribute fallback resolver for must-use / deprecated, and the typed
annotation store.

Strings are modelled as lists of characters; the helpers `trimLeft`,
`trimRight`, `trim` and `splitChar` mirror Rust's `str::trim_start`,
`str::trim_end`, `str::trim` and `str::split(char)` (splitting on every
occurrence, keeping empty segments, with the empty string splitting to a
single empty segment).
-/

namespace Cbindgen

abbrev Str := List Char

/-- Rust `str::trim_start` (leading whitespace removed). -/
def trimLeft (s : Str) : Str := s.dropWhile Char.isWhitespace

/-- Rust `str::trim_end` (trailing whitespace removed). -/
def trimRight (s : Str) : Str := (s.reverse.dropWhile Char.isWhitespace).reverse

/-- Rust `str::trim`. -/
def trim (s : Str) : Str := trimRight (trimLeft s)

/-- Rust `str::split(c)`: split on every occurrence of `c`, keeping empty
segments; the empty string yields one empty segment. -/
def splitChar (c : Char) : Str → List Str
  | [] => [[]]
  | x :: xs =>
    match splitChar c xs with
    | [] => [[]]
    | y :: ys => if x = c then [] :: y :: ys else (x :: y) :: ys

/-- Rust `str::parse::<bool>()`: exactly the literals `true` and `false`. -/
def parseBool (s : Str) : Option Bool :=
  if s = "true".data then some true
  else if s = "false".data then some false
  else none

/-- A value specified by an annotation (enum `AnnotationValue`). -/
inductive AnnotationValue
  | List : List Str → AnnotationValue
  | Atom : Option Str → AnnotationValue
  | Bool : Bool → AnnotationValue
deriving DecidableEq

/-- The `annotations: HashMap<String, AnnotationValue>` field, modelled as an
association list where `insert` prepends and `get` takes the most recent
binding, matching `HashMap::insert` overwrite semantics extensionally. -/
abbrev AMap := List (Str × AnnotationValue)

def AMap.get : AMap → Str → Option AnnotationValue
  | [], _ => none
  | (k, v) :: m, n => if k = n then some v else AMap.get m n

def AMap.insert (m : AMap) (k : Str) (v : AnnotationValue) : AMap :=
  (k, v) :: m

/-- Struct `AnnotationSet`. -/
structure AnnotationSet where
  annotations : AMap
  must_use : Bool
  deprecated : Option Str
deriving DecidableEq

/-- Modelled from the spec: the output-target identifier
(`Language` in src/bindgen/config.rs, which is not part of the sources
here); the spec names one bridging language (Cython) for which must-use and
deprecated have no native expression. -/
inductive Language
  | cxx | c | cython
deriving DecidableEq

/-- Modelled from the spec: the configuration handed to the queries, of
which only the output-target identifier is consulted. -/
structure Config where
  language : Language

def AnnotationSet.new : AnnotationSet :=
  { annotations := [], must_use := false, deprecated := none }

def AnnotationSet.is_empty (s : AnnotationSet) : Bool :=
  s.annotations.isEmpty && !s.must_use

/-- `AnnotationSet::must_use(&self, config)`. -/
def AnnotationSet.mustUse (s : AnnotationSet) (config : Config) : Bool :=
  s.must_use && decide (config.language ≠ Language.cython)

/-- `AnnotationSet::deprecated(&self, config)` (the query, distinct from the
stored field of the same name). -/
def AnnotationSet.deprecatedQ (s : AnnotationSet) (config : Config) : Bool :=
  s.deprecated.isSome && decide (config.language ≠ Language.cython)

/-- `parse_list`: parse values like `[x, y, z]`. -/
def parse_list (list : Str) : Option (List Str) :=
  if list.length < 2 then none
  else
    match list.head?, list.getLast? with
    | some '[', some ']' =>
      some (((splitChar ',') ((list.drop 1).dropLast)).map trim)
    | _, _ => none

/-- Value inference on the raw value text of a `name=value` directive, in
source order: list, then boolean literal, then atom (empty text is the
absent atom). -/
def inferValue (value : Str) : AnnotationValue :=
  match parse_list value with
  | some x => AnnotationValue.List x
  | none =>
    match parseBool value with
    | some b => AnnotationValue.Bool b
    | none =>
      if value = [] then AnnotationValue.Atom none
      else AnnotationValue.Atom (some value)

/-- One directive string (the line after the `cbindgen:` marker): split on
`=` with every part trimmed; one part means a bare boolean flag, two parts
mean `name=value`, more parts are the malformed-directive fault (`none`
here; `splitChar` never returns zero parts). -/
def parseDirective (ann : Str) : Option (Str × AnnotationValue) :=
  match (splitChar '=' ann).map trim with
  | [name] => some (name, AnnotationValue.Bool true)
  | [name, value] => some (name, inferValue value)
  | _ => none

/-- The directive marker. -/
def marker : Str := "cbindgen:".data

/-- The comment scanner inside `AnnotationSet::load`: trim leading
whitespace, keep exactly the lines starting with the marker (kept lines are
the trimmed ones). -/
def scanLines (lines : List Str) : List Str :=
  lines.filterMap (fun line =>
    let line := trimLeft line
    if marker.isPrefixOf line then some line else none)

/-- The malformed-directive message `format!("Couldn't parse {}.", line)`. -/
def errMsg (line : Str) : Str := "Couldn't parse ".data ++ line ++ ".".data

/-- The directive loop of `AnnotationSet::load`: process kept lines in
source order, strip the 9-character marker, insert each parsed pair,
abort on a malformed directive. -/
def processLines : AMap → List Str → Except Str AMap
  | m, [] => Except.ok m
  | m, line :: rest =>
    match parseDirective (line.drop 9) with
    | none => Except.error (errMsg line)
    | some (name, value) => processLines (m.insert name value) rest

/-- A literal in a structured attribute argument (`syn::Lit`), as far as the
resolver inspects it: a string literal or anything else. -/
inductive Lit
  | str : Str → Lit
  | other : Lit
deriving DecidableEq

/-- Modelled from the spec: the queryable attribute list the external
syntax-tree reader supplies per declaration (the helpers
`get_comment_lines`, `has_attr_word` and `attr_name_value_lookup` live in
src/bindgen/utilities.rs, which is not among the sources here; the spec
describes them as "does a bare marker with this name exist", "look up a
single name-value pair by name returning its text", and structural
matching against a multi-field form). `deprecatedMetaArgs` is `none` when
no multi-field `deprecated(...)` attribute exists, and otherwise carries
the result of parsing its argument list into (field-name, literal) pairs,
or the parse error's text. -/
structure AttrInput where
  commentLines : List Str
  hasAttrWord : Str → Bool
  attrNameValueLookup : Str → Option Str
  deprecatedMetaArgs : Option (Except Str (List (Str × Lit)))

/-- The deprecated-note resolution of `AnnotationSet::load` (lines 77-106):
name-value form first, then the bare word, then the multi-field form with
its nested `note` field and its three failure sub-cases. -/
def resolveDeprecated (a : AttrInput) : Except Str (Option Str) :=
  match a.attrNameValueLookup "deprecated".data with
  | some note => Except.ok (some note)
  | none =>
    if a.hasAttrWord "deprecated".data then Except.ok (some [])
    else
      match a.deprecatedMetaArgs with
      | none => Except.ok none
      | some (Except.error e) =>
        Except.error ("Couldn't parse deprecated attribute: ".data ++ e)
      | some (Except.ok args) =>
        match (args.find? (fun arg => decide (arg.1 = "note".data))).map Prod.snd with
        | none =>
          Except.error "Couldn't parse deprecated attribute: no `note` field".data
        | some (Lit.str s) => Except.ok (some s)
        | some Lit.other => Except.error "deprecated attribute must be a string".data

/-- `AnnotationSet::load`: scan the comment lines, resolve the two
attribute-derived flags, then run the directive loop. -/
def load (a : AttrInput) : Except Str AnnotationSet :=
  match resolveDeprecated a with
  | Except.error e => Except.error e
  | Except.ok deprecated =>
    match processLines [] (scanLines a.commentLines) with
    | Except.error e => Except.error e
    | Except.ok annotations =>
      Except.ok { annotations := annotations,
                  must_use := a.hasAttrWord "must_use".data,
                  deprecated := deprecated }

/-- `AnnotationSet::add_default`: insert only into a vacant entry. -/
def AnnotationSet.add_default (s : AnnotationSet) (name : Str)
    (value : AnnotationValue) : AnnotationSet :=
  match s.annotations.get name with
  | none => { s with annotations := s.annotations.insert name value }
  | some _ => s

/-- `AnnotationSet::list`. -/
def AnnotationSet.list (s : AnnotationSet) (name : Str) : Option (List Str) :=
  match s.annotations.get name with
  | some (AnnotationValue.List x) => some x
  | _ => none

/-- `AnnotationSet::atom`. -/
def AnnotationSet.atom (s : AnnotationSet) (name : Str) : Option (Option Str) :=
  match s.annotations.get name with
  | some (AnnotationValue.Atom x) => some x
  | _ => none

/-- `AnnotationSet::bool`. -/
def AnnotationSet.bool (s : AnnotationSet) (name : Str) : Option Bool :=
  match s.annotations.get name with
  | some (AnnotationValue.Bool x) => some x
  | _ => none

/-- The panic in `parse_atom` (`.ok().unwrap()` on a failed conversion),
modelled as the error of an `Except`. -/
inductive AtomFault
  | panic
deriving DecidableEq

/-- `AnnotationSet::parse_atom::<T>`, parametrised by `T`'s `Default`
(`dflt`) and `FromStr` (`fromStr`, with `none` for a conversion error). -/
def AnnotationSet.parse_atom {T : Type} (dflt : T) (fromStr : Str → Option T)
    (s : AnnotationSet) (name : Str) : Except AtomFault (Option T) :=
  match s.annotations.get name with
  | some (AnnotationValue.Atom x) =>
    match x with
    | none => Except.ok (some dflt)
    | some y =>
      match fromStr y with
      | some t => Except.ok (some t)
      | none => Except.error AtomFault.panic
  | _ => Except.ok none

/-- The value typing as the specification words it, to be compared with the
source-derived `inferValue`: bracketed text of length at least 2 becomes a
list of the trimmed segments of the interior split on commas; else the
literals `true`/`false` become booleans; else empty text is the absent atom
and non-empty text the present atom. -/
def specTypeValue (text : Str) : AnnotationValue :=
  if text.head? = some '[' ∧ text.getLast? = some ']' ∧ 2 ≤ text.length then
    AnnotationValue.List ((splitChar ',' ((text.drop 1).dropLast)).map trim)
  else if text = "true".data then AnnotationValue.Bool true
  else if text = "false".data then AnnotationValue.Bool false
  else if text = [] then AnnotationValue.Atom none
  else AnnotationValue.Atom (some text)

/-- Spec-side description of "the last occurrence of a repeated name wins":
the value of the last line (of a scanned line list) whose parsed directive
carries the given name, if any. -/
def lastVal (n : Str) : List Str → Option AnnotationValue
  | [] => none
  | line :: rest =>
    match lastVal n rest with
    | some v => some v
    | none =>
      match parseDirective (line.drop 9) with
      | some (k, v) => if k = n then some v else none
      | none => none

/-- A declaration whose only comment line is the bare marker `cbindgen:`
(no attributes). -/
def bareMarkerInput : AttrInput :=
  { commentLines := ["cbindgen:".data],
    hasAttrWord := fun _ => false,
    attrNameValueLookup := fun _ => none,
    deprecatedMetaArgs := none }

/-- The annotation set produced for `bareMarkerInput`. -/
def bareMarkerSet : AnnotationSet :=
  { annotations := [([], AnnotationValue.Bool true)],
    must_use := false, deprecated := none }

/-- A declaration with a directive line carrying two `=` separators. -/
def malformedInput : AttrInput :=
  { commentLines := ["cbindgen:a=b=c".data],
    hasAttrWord := fun _ => false,
    attrNameValueLookup := fun _ => none,
    deprecatedMetaArgs := none }

/-- A declaration with a multi-field deprecated attribute whose `note`
field is the string literal `reason`. -/
def depNoteInput : AttrInput :=
  { commentLines := [],
    hasAttrWord := fun _ => false,
    attrNameValueLookup := fun _ => none,
    deprecatedMetaArgs :=
      some (Except.ok [("note".data, Lit.str "reason".data)]) }

/-- A declaration with a multi-field deprecated attribute lacking a `note`
field. -/
def depMissingNoteInput : AttrInput :=
  { commentLines := [],
    hasAttrWord := fun _ => false,
    attrNameValueLookup := fun _ => none,
    deprecatedMetaArgs := some (Except.ok []) }

/-- A set whose stored flags are both set, for exercising the
language-gated queries. -/
def flaggedSet : AnnotationSet :=
  { annotations := [], must_use := true, deprecated := some [] }

/-- A set holding one list-valued annotation. -/
def listSet : AnnotationSet :=
  { annotations :=
      [("field-names".data,
        AnnotationValue.List ["mHandle".data, "mNamespace".data])],
    must_use := false, deprecated := none }

/-- A concrete `FromStr` for the `parse_atom` theorems: converts only the
text `1`. -/
def natFromStr (s : Str) : Option Nat :=
  if s = "1".data then some 1 else none

/-- A set with a convertible atom, a non-convertible atom and an absent
atom. -/
def atomSet : AnnotationSet :=
  { annotations :=
      [("a".data, AnnotationValue.Atom (some "1".data)),
       ("b".data, AnnotationValue.Atom (some "z".data)),
       ("c".data, AnnotationValue.Atom none)],
    must_use := false, deprecated := none }

/-- A declaration repeating the directive name `x`. -/
def repeatInput : AttrInput :=
  { commentLines := ["cbindgen:x=1".data, "cbindgen:x=2".data],
    hasAttrWord := fun _ => false,
    attrNameValueLookup := fun _ => none,
    deprecatedMetaArgs := none }

/-- The annotation set produced for `repeatInput`. -/
def repeatSet : AnnotationSet :=
  { annotations :=
      [("x".data, AnnotationValue.Atom (some "2".data)),
       ("x".data, AnnotationValue.Atom (some "1".data))],
    must_use := false, deprecated := none }

/-- A declaration whose directive value is the empty bracket pair `[]`. -/
def emptyListInput : AttrInput :=
  { commentLines := ["cbindgen:x=[]".data],
    hasAttrWord := fun _ => false,
    attrNameValueLookup := fun _ => none,
    deprecatedMetaArgs := none }

/-- The annotation set produced for `emptyListInput`: the value `[]` is
stored as a one-element list holding the empty string. -/
def emptyListSet : AnnotationSet :=
  { annotations := [("x".data, AnnotationValue.List [[]])],
    must_use := false, deprecated := none }

end Cbindgen

open Cbindgen

example : splitChar '=' "a=b".data = ["a".data, "b".data] := by decide
example : splitChar '=' [] = [[]] := by decide
example : splitChar '=' "=".data = [[], []] := by decide
example : trim " a ".data = "a".data := by decide
example : parse_list "[a, b]".data = some ["a".data, "b".data] := by decide
example : parse_list "[]".data = some [[]] := by decide
example : parseDirective "a=b=c".data = none := by decide
example : parseDirective "must-use".data =
    some ("must-use".data, AnnotationValue.Bool true) := by decide

theorem splitChar_ne_nil (c : Char) (s : Str) : splitChar c s ≠ [] := by
  cases s with
  | nil => simp [splitChar]
  | cons x xs =>
    simp only [splitChar]
    cases splitChar c xs with
    | nil => simp
    | cons y ys => by_cases hx : x = c <;> simp [hx]

theorem length_splitChar (c : Char) (s : Str) :
    (splitChar c s).length = s.count c + 1 := by
  induction s with
  | nil => simp [splitChar]
  | cons x xs ih =>
    simp only [splitChar]
    cases h : splitChar c xs with
    | nil => exact absurd h (splitChar_ne_nil c xs)
    | cons y ys =>
      rw [h] at ih
      simp only [List.length_cons] at ih
      dsimp only
      by_cases hx : x = c
      · subst hx
        rw [if_pos rfl, List.count_cons_self]
        simp only [List.length_cons]
        omega
      · rw [if_neg hx, List.count_cons_of_ne (fun hh => hx hh.symm)]
        simp only [List.length_cons]
        omega

theorem splitChar_of_count_zero (c : Char) (s : Str) (h : s.count c = 0) :
    splitChar c s = [s] := by
  induction s with
  | nil => simp [splitChar]
  | cons x xs ih =>
    by_cases hcx : c = x
    · subst hcx
      rw [List.count_cons_self] at h
      omega
    · rw [List.count_cons_of_ne hcx] at h
      simp only [splitChar, ih h]
      rw [if_neg (fun hh => hcx hh.symm)]

theorem parse_list_eq (v : Str) :
    parse_list v =
      if v.head? = some '[' ∧ v.getLast? = some ']' ∧ 2 ≤ v.length then
        some ((splitChar ',' ((v.drop 1).dropLast)).map trim)
      else none := by
  unfold parse_list
  by_cases hlen : v.length < 2
  · rw [if_pos hlen, if_neg]
    rintro ⟨-, -, h2⟩
    omega
  · rw [if_neg hlen]
    split
    · next h1 h2 => rw [if_pos ⟨h1, h2, by omega⟩]
    · next hne =>
      rw [if_neg]
      rintro ⟨h1, h2, -⟩
      exact hne h1 h2

theorem inferValue_eq_spec (v : Str) : inferValue v = specTypeValue v := by
  unfold inferValue specTypeValue parseBool
  rw [parse_list_eq]
  by_cases hl : v.head? = some '[' ∧ v.getLast? = some ']' ∧ 2 ≤ v.length
  · rw [if_pos hl, if_pos hl]
  · rw [if_neg hl, if_neg hl]
    by_cases ht : v = "true".data
    · simp [ht]
    · by_cases hf : v = "false".data
      · simp [ht, hf]
      · simp [ht, hf]

theorem parseDirective_none_iff (ann : Str) :
    parseDirective ann = none ↔ 2 ≤ ann.count '=' := by
  have h := length_splitChar '=' ann
  unfold parseDirective
  cases hs : splitChar '=' ann with
  | nil => exact absurd hs (splitChar_ne_nil '=' ann)
  | cons a l =>
    rw [hs] at h
    simp only [List.length_cons] at h
    cases l with
    | nil =>
      simp only [List.length_nil] at h
      simp only [List.map_cons, List.map_nil]
      constructor
      · intro hc
        exact absurd hc (by simp)
      · intro h2
        omega
    | cons b l2 =>
      simp only [List.length_cons] at h
      cases l2 with
      | nil =>
        simp only [List.length_nil] at h
        simp only [List.map_cons, List.map_nil]
        constructor
        · intro hc
          exact absurd hc (by simp)
        · intro h2
          omega
      | cons c3 l3 =>
        simp only [List.length_cons] at h
        simp only [List.map_cons]
        constructor
        · intro _
          omega
        · intro _
          trivial

theorem parseDirective_count_zero (ann : Str) (h : ann.count '=' = 0) :
    parseDirective ann = some (trim ann, AnnotationValue.Bool true) := by
  unfold parseDirective
  rw [splitChar_of_count_zero _ _ h]
  rfl

theorem parseDirective_two_parts (ann l r : Str)
    (hs : splitChar '=' ann = [l, r]) :
    parseDirective ann = some (trim l, inferValue (trim r)) := by
  unfold parseDirective
  rw [hs]
  rfl

theorem parseDirective_name (ann : Str) (k : Str) (v : AnnotationValue)
    (h : parseDirective ann = some (k, v)) :
    k = trim ((splitChar '=' ann).headI) := by
  unfold parseDirective at h
  cases hs : splitChar '=' ann with
  | nil => exact absurd hs (splitChar_ne_nil '=' ann)
  | cons a l =>
    rw [hs] at h
    cases l with
    | nil =>
      simp only [List.map_cons, List.map_nil, Option.some_inj,
        Prod.mk.injEq] at h
      rw [List.headI, h.1]
    | cons b l2 =>
      cases l2 with
      | nil =>
        simp only [List.map_cons, List.map_nil, Option.some_inj,
          Prod.mk.injEq] at h
        rw [List.headI, h.1]
      | cons c3 l3 =>
        simp only [List.map_cons] at h
        exact absurd h (by simp)

theorem AMap.get_insert (m : AMap) (k n : Str) (v : AnnotationValue) :
    (m.insert k v).get n = if k = n then some v else m.get n := rfl

theorem processLines_error_iff (lines : List Str) (m : AMap) :
    (∃ e, processLines m lines = Except.error e) ↔
      ∃ line ∈ lines, parseDirective (line.drop 9) = none := by
  induction lines generalizing m with
  | nil => simp [processLines]
  | cons line rest ih =>
    simp only [processLines]
    cases hp : parseDirective (line.drop 9) with
    | none =>
      constructor
      · intro _
        exact ⟨line, by simp, hp⟩
      · intro _
        exact ⟨errMsg line, rfl⟩
    | some kv =>
      obtain ⟨k, v⟩ := kv
      constructor
      · intro he
        obtain ⟨l, hl, hpl⟩ := (ih (m.insert k v)).mp he
        exact ⟨l, List.mem_cons_of_mem _ hl, hpl⟩
      · rintro ⟨l, hl, hpl⟩
        rcases List.mem_cons.mp hl with rfl | hl2
        · rw [hp] at hpl
          exact absurd hpl (by simp)
        · exact (ih (m.insert k v)).mpr ⟨l, hl2, hpl⟩

theorem processLines_error_msg (lines : List Str) (m : AMap) (e : Str)
    (h : processLines m lines = Except.error e) :
    ∃ line ∈ lines, parseDirective (line.drop 9) = none ∧ line <:+: e := by
  induction lines generalizing m with
  | nil => simp [processLines] at h
  | cons line rest ih =>
    simp only [processLines] at h
    cases hp : parseDirective (line.drop 9) with
    | none =>
      rw [hp] at h
      have he : errMsg line = e := by
        injection h
      refine ⟨line, by simp, hp, ?_⟩
      rw [← he]
      exact ⟨"Couldn't parse ".data, ".".data, rfl⟩
    | some kv =>
      obtain ⟨k, v⟩ := kv
      rw [hp] at h
      obtain ⟨l, hl, h1, h2⟩ := ih (m.insert k v) h
      exact ⟨l, List.mem_cons_of_mem _ hl, h1, h2⟩

theorem processLines_last (lines : List Str) (m m' : AMap)
    (h : processLines m lines = Except.ok m') (n : Str) :
    m'.get n = match lastVal n lines with
      | some v => some v
      | none => m.get n := by
  induction lines generalizing m with
  | nil =>
    simp only [processLines, Except.ok.injEq] at h
    subst h
    simp [lastVal]
  | cons line rest ih =>
    simp only [processLines] at h
    cases hp : parseDirective (line.drop 9) with
    | none =>
      rw [hp] at h
      exact absurd h (by simp)
    | some kv =>
      obtain ⟨k, v⟩ := kv
      rw [hp] at h
      have hrec := ih (m.insert k v) h
      simp only [lastVal, hp]
      cases hl : lastVal n rest with
      | some w =>
        rw [hl] at hrec
        simpa using hrec
      | none =>
        rw [hl] at hrec
        rw [hrec, AMap.get_insert]
        by_cases hk : k = n
        · simp [hk]
        · simp [hk]

theorem processLines_keys (lines : List Str) (m m' : AMap)
    (h : processLines m lines = Except.ok m') (k : Str)
    (hk : m'.get k ≠ none) :
    m.get k ≠ none ∨
      ∃ line ∈ lines, ∃ v, parseDirective (line.drop 9) = some (k, v) := by
  induction lines generalizing m with
  | nil =>
    simp only [processLines, Except.ok.injEq] at h
    subst h
    exact Or.inl hk
  | cons line rest ih =>
    simp only [processLines] at h
    cases hp : parseDirective (line.drop 9) with
    | none =>
      rw [hp] at h
      exact absurd h (by simp)
    | some kv =>
      obtain ⟨k0, v0⟩ := kv
      rw [hp] at h
      rcases ih (m.insert k0 v0) h with hin | ⟨l, hl, v1, hv1⟩
      · rw [AMap.get_insert] at hin
        by_cases hk0 : k0 = k
        · exact Or.inr ⟨line, by simp, v0, hk0 ▸ hp⟩
        · rw [if_neg hk0] at hin
          exact Or.inl hin
      · exact Or.inr ⟨l, List.mem_cons_of_mem _ hl, v1, hv1⟩

theorem load_ok_annotations (a : AttrInput) (s : AnnotationSet)
    (h : load a = Except.ok s) :
    processLines [] (scanLines a.commentLines) = Except.ok s.annotations := by
  unfold load at h
  cases hd : resolveDeprecated a with
  | error e =>
    rw [hd] at h
    exact absurd h (by simp)
  | ok w =>
    rw [hd] at h
    cases hp : processLines [] (scanLines a.commentLines) with
    | error e =>
      rw [hp] at h
      exact absurd h (by simp)
    | ok ann =>
      rw [hp] at h
      simp only [Except.ok.injEq] at h
      rw [← h]

theorem inferValue_list_ne_nil (v : Str) (xs : List Str)
    (h : inferValue v = AnnotationValue.List xs) : xs ≠ [] := by
  unfold inferValue at h
  cases hp : parse_list v with
  | some x =>
    rw [hp] at h
    simp only [AnnotationValue.List.injEq] at h
    subst h
    rw [parse_list_eq] at hp
    split at hp
    · next hcond =>
      simp only [Option.some_inj] at hp
      intro hnil
      rw [hnil] at hp
      have hne := splitChar_ne_nil ',' ((v.drop 1).dropLast)
      rw [List.map_eq_nil_iff] at hp
      exact hne hp
    · exact absurd hp (by simp)
  | none =>
    rw [hp] at h
    cases hb : parseBool v with
    | some b => rw [hb] at h; exact absurd h (by simp)
    | none =>
      rw [hb] at h
      by_cases hv : v = []
      · rw [if_pos hv] at h; exact absurd h (by simp)
      · rw [if_neg hv] at h; exact absurd h (by simp)

theorem parseDirective_list_ne_nil (ann : Str) (k : Str) (xs : List Str)
    (h : parseDirective ann = some (k, AnnotationValue.List xs)) : xs ≠ [] := by
  unfold parseDirective at h
  cases hs : splitChar '=' ann with
  | nil => exact absurd hs (splitChar_ne_nil '=' ann)
  | cons a l =>
    rw [hs] at h
    cases l with
    | nil =>
      simp only [List.map_cons, List.map_nil, Option.some_inj,
        Prod.mk.injEq] at h
      exact absurd h.2 (by simp)
    | cons b l2 =>
      cases l2 with
      | nil =>
        simp only [List.map_cons, List.map_nil, Option.some_inj,
          Prod.mk.injEq] at h
        exact inferValue_list_ne_nil (trim b) xs h.2
      | cons c3 l3 =>
        simp only [List.map_cons] at h
        exact absurd h (by simp)

theorem processLines_list_values (lines : List Str) (m m' : AMap)
    (h : processLines m lines = Except.ok m')
    (hm : ∀ n xs, m.get n = some (AnnotationValue.List xs) → xs ≠ [])
    (n : Str) (xs : List Str)
    (hx : m'.get n = some (AnnotationValue.List xs)) : xs ≠ [] := by
  induction lines generalizing m with
  | nil =>
    simp only [processLines, Except.ok.injEq] at h
    subst h
    exact hm n xs hx
  | cons line rest ih =>
    simp only [processLines] at h
    cases hp : parseDirective (line.drop 9) with
    | none =>
      rw [hp] at h
      exact absurd h (by simp)
    | some kv =>
      obtain ⟨k0, v0⟩ := kv
      rw [hp] at h
      refine ih (m.insert k0 v0) h ?_
      intro n1 xs1 h1
      rw [AMap.get_insert] at h1
      by_cases hk0 : k0 = n1
      · rw [if_pos hk0] at h1
        simp only [Option.some_inj] at h1
        exact parseDirective_list_ne_nil (line.drop 9) k0 xs1 (h1 ▸ hp)
      · rw [if_neg hk0] at h1
        exact hm n1 xs1 h1

/-- C1 (amended): a candidate directive string with zero `=` separators
stores the trimmed whole string as the name with value `Bool(true)` (the
untrimmed string of the original claim is wrong when trailing or leading
whitespace surrounds the name); with exactly one separator the trimmed
left part is the name and the trimmed right part is typed by the fixed
priority: bracketed list, boolean literal, then atom (absent when empty). -/
theorem c1_directive_typing (ann : Str) :
    (ann.count '=' = 0 →
      parseDirective ann = some (trim ann, AnnotationValue.Bool true)) ∧
    (ann.count '=' = 1 → ∀ l r, splitChar '=' ann = [l, r] →
      parseDirective ann = some (trim l, specTypeValue (trim r))) := by
  constructor
  · exact parseDirective_count_zero ann
  · intro _ l r hs
    rw [parseDirective_two_parts ann l r hs, inferValue_eq_spec]

/-- C1, witness: a bare flag and a bracketed list directive, evaluated
concretely through the theorem. -/
theorem c1_directive_typing_witness :
    parseDirective "must-use".data =
      some (trim "must-use".data, AnnotationValue.Bool true) ∧
    parseDirective "field-names=[mHandle, mNamespace]".data =
      some (trim "field-names".data,
        specTypeValue (trim "[mHandle, mNamespace]".data)) :=
  ⟨(c1_directive_typing "must-use".data).1 (by decide),
   (c1_directive_typing "field-names=[mHandle, mNamespace]".data).2
     (by decide) "field-names".data "[mHandle, mNamespace]".data (by decide)⟩

/-- C1, counterexample to the claim as stated: for the candidate directive
string `a ` (zero separators, trailing space) the stored name is the
trimmed `a`, not the whole string `a `. -/
theorem c1_counterexample :
    "a ".data.count '=' = 0 ∧
    parseDirective "a ".data ≠ some ("a ".data, AnnotationValue.Bool true) ∧
    parseDirective "a ".data = some ("a".data, AnnotationValue.Bool true) := by
  decide

/-- C2: when the attribute-derived deprecation resolution succeeds,
construction fails (producing no annotation set) exactly when some kept
directive line has two or more `=` separators, and any such failure's
message contains the full offending line. -/
theorem c2_malformed_directive (a : AttrInput) (w : Option Str)
    (hdep : resolveDeprecated a = Except.ok w) :
    ((∃ e, load a = Except.error e) ↔
      ∃ line ∈ scanLines a.commentLines, 2 ≤ (line.drop 9).count '=') ∧
    (∀ e, load a = Except.error e →
      ∃ line ∈ scanLines a.commentLines,
        2 ≤ (line.drop 9).count '=' ∧ line <:+: e) := by
  have hload : ∀ e, load a = Except.error e ↔
      processLines [] (scanLines a.commentLines) = Except.error e := by
    intro e
    unfold load
    rw [hdep]
    cases hp : processLines [] (scanLines a.commentLines) with
    | error e2 => simp
    | ok ann => simp
  constructor
  · constructor
    · rintro ⟨e, he⟩
      rw [hload e] at he
      obtain ⟨line, hl, hn⟩ := (processLines_error_iff _ _).mp ⟨e, he⟩
      exact ⟨line, hl, (parseDirective_none_iff _).mp hn⟩
    · rintro ⟨line, hl, hn⟩
      obtain ⟨e, he⟩ := (processLines_error_iff _ _).mpr
        ⟨line, hl, (parseDirective_none_iff _).mpr hn⟩
      exact ⟨e, (hload e).mpr he⟩
  · intro e he
    rw [hload e] at he
    obtain ⟨line, hl, hn, hinf⟩ := processLines_error_msg _ _ e he
    exact ⟨line, hl, (parseDirective_none_iff _).mp hn, hinf⟩

/-- C2, witness: the declaration whose only directive line is
`cbindgen:a=b=c`. -/
theorem c2_malformed_directive_witness :
    (∃ e, load malformedInput = Except.error e) ∧
    (∃ line ∈ scanLines malformedInput.commentLines,
      2 ≤ (line.drop 9).count '=' ∧
        line <:+: errMsg "cbindgen:a=b=c".data) :=
  ⟨((c2_malformed_directive malformedInput none rfl).1).mpr
      ⟨"cbindgen:a=b=c".data, by decide, by decide⟩,
   (c2_malformed_directive malformedInput none rfl).2
      (errMsg "cbindgen:a=b=c".data) rfl⟩

/-- C4: the must-use and deprecated queries report false for the bridging
language (Cython) regardless of the stored flags, and for every other
target report exactly the stored boolean and the presence of the stored
note; both are pure functions of the set and the configuration. -/
theorem c4_language_gate (s : AnnotationSet) (cfg : Config) :
    (cfg.language = Language.cython →
      s.mustUse cfg = false ∧ s.deprecatedQ cfg = false) ∧
    (cfg.language ≠ Language.cython →
      s.mustUse cfg = s.must_use ∧ s.deprecatedQ cfg = s.deprecated.isSome) := by
  constructor
  · intro h
    simp [AnnotationSet.mustUse, AnnotationSet.deprecatedQ, h]
  · intro h
    simp [AnnotationSet.mustUse, AnnotationSet.deprecatedQ, h]

/-- C4, witness: a set with both flags stored, queried against Cython and
against C. -/
theorem c4_language_gate_witness :
    (flaggedSet.mustUse { language := Language.cython } = false ∧
     flaggedSet.deprecatedQ { language := Language.cython } = false) ∧
    (flaggedSet.mustUse { language := Language.c } = flaggedSet.must_use ∧
     flaggedSet.deprecatedQ { language := Language.c } =
       flaggedSet.deprecated.isSome) :=
  ⟨(c4_language_gate flaggedSet { language := Language.cython }).1 rfl,
   (c4_language_gate flaggedSet { language := Language.c }).2 (by decide)⟩

/-- C3: deprecated-note resolution precedence, first match wins: a
name-value `deprecated` attribute yields its text; else a bare marker
yields the empty note; else a multi-field form yields its `note` field's
string literal, failing with a distinct message when the argument list
does not parse, when the `note` field is absent, or when it is not a
string literal; with none of the forms the note is absent. An error from
this resolution aborts construction; on success the resolved note is the
one stored. -/
theorem c3_deprecated_resolution (a : AttrInput) :
    (∀ s, a.attrNameValueLookup "deprecated".data = some s →
      resolveDeprecated a = Except.ok (some s)) ∧
    (a.attrNameValueLookup "deprecated".data = none →
      a.hasAttrWord "deprecated".data = true →
      resolveDeprecated a = Except.ok (some [])) ∧
    (a.attrNameValueLookup "deprecated".data = none →
      a.hasAttrWord "deprecated".data = false →
      a.deprecatedMetaArgs = none →
      resolveDeprecated a = Except.ok none) ∧
    (∀ e, a.attrNameValueLookup "deprecated".data = none →
      a.hasAttrWord "deprecated".data = false →
      a.deprecatedMetaArgs = some (Except.error e) →
      resolveDeprecated a =
        Except.error ("Couldn't parse deprecated attribute: ".data ++ e)) ∧
    (∀ args, a.attrNameValueLookup "deprecated".data = none →
      a.hasAttrWord "deprecated".data = false →
      a.deprecatedMetaArgs = some (Except.ok args) →
      args.find? (fun arg => decide (arg.1 = "note".data)) = none →
      resolveDeprecated a =
        Except.error "Couldn't parse deprecated attribute: no `note` field".data) ∧
    (∀ args p s, a.attrNameValueLookup "deprecated".data = none →
      a.hasAttrWord "deprecated".data = false →
      a.deprecatedMetaArgs = some (Except.ok args) →
      args.find? (fun arg => decide (arg.1 = "note".data)) = some p →
      p.2 = Lit.str s →
      resolveDeprecated a = Except.ok (some s)) ∧
    (∀ args p, a.attrNameValueLookup "deprecated".data = none →
      a.hasAttrWord "deprecated".data = false →
      a.deprecatedMetaArgs = some (Except.ok args) →
      args.find? (fun arg => decide (arg.1 = "note".data)) = some p →
      p.2 = Lit.other →
      resolveDeprecated a =
        Except.error "deprecated attribute must be a string".data) ∧
    ("Couldn't parse deprecated attribute: no `note` field".data ≠
      "deprecated attribute must be a string".data) ∧
    (∀ e, resolveDeprecated a = Except.error e → load a = Except.error e) ∧
    (∀ w s, resolveDeprecated a = Except.ok w → load a = Except.ok s →
      s.deprecated = w) := by
  refine ⟨?_, ?_, ?_, ?_, ?_, ?_, ?_, by decide, ?_, ?_⟩
  · intro s h
    unfold resolveDeprecated
    rw [h]
  · intro h1 h2
    unfold resolveDeprecated
    rw [h1, h2]
    rfl
  · intro h1 h2 h3
    unfold resolveDeprecated
    rw [h1, h2, h3]
    rfl
  · intro e h1 h2 h3
    unfold resolveDeprecated
    rw [h1, h2, h3]
    rfl
  · intro args h1 h2 h3 h4
    simp only [resolveDeprecated, h1, h2, h3, h4]
    rfl
  · intro args p s h1 h2 h3 h4 h5
    simp only [resolveDeprecated, h1, h2, h3, h4]
    have hm : Option.map Prod.snd (some p) = some (Lit.str s) := by
      rw [← h5]
      rfl
    rw [hm]
    rfl
  · intro args p h1 h2 h3 h4 h5
    simp only [resolveDeprecated, h1, h2, h3, h4]
    have hm : Option.map Prod.snd (some p) = some Lit.other := by
      rw [← h5]
      rfl
    rw [hm]
    rfl
  · intro e h
    unfold load
    rw [h]
  · intro w s h1 h2
    unfold load at h2
    rw [h1] at h2
    cases hp : processLines [] (scanLines a.commentLines) with
    | error e =>
      rw [hp] at h2
      exact absurd h2 (by simp)
    | ok ann =>
      rw [hp] at h2
      simp only [Except.ok.injEq] at h2
      rw [← h2]

/-- C3, witness: the `note = "reason"` multi-field form resolves to the
note `reason`, and the form lacking a `note` field faults with the
no-note message. -/
theorem c3_deprecated_resolution_witness :
    resolveDeprecated depNoteInput = Except.ok (some "reason".data) ∧
    resolveDeprecated depMissingNoteInput =
      Except.error "Couldn't parse deprecated attribute: no `note` field".data :=
  ⟨(c3_deprecated_resolution depNoteInput).2.2.2.2.2.1
      [("note".data, Lit.str "reason".data)]
      ("note".data, Lit.str "reason".data) "reason".data
      rfl rfl rfl (by decide) rfl,
   (c3_deprecated_resolution depMissingNoteInput).2.2.2.2.1
      [] rfl rfl rfl rfl⟩

/-- C5: `add_default` inserts only when the name is vacant (leaving every
other name's lookup unchanged), does nothing when the name is present, and
of two successive defaults for a vacant name only the first is stored. -/
theorem c5_add_default (s : AnnotationSet) (n : Str) (v w : AnnotationValue) :
    (s.annotations.get n = none →
      (s.add_default n v).annotations.get n = some v ∧
      (∀ k, k ≠ n →
        (s.add_default n v).annotations.get k = s.annotations.get k) ∧
      (s.add_default n v).add_default n w = s.add_default n v) ∧
    (s.annotations.get n ≠ none → s.add_default n v = s) := by
  have hpresent : ∀ (t : AnnotationSet) (u : AnnotationValue),
      t.annotations.get n ≠ none → t.add_default n u = t := by
    intro t u ht
    unfold AnnotationSet.add_default
    cases hg : t.annotations.get n with
    | none => exact absurd hg ht
    | some _ => rfl
  constructor
  · intro h
    have hset : s.add_default n v =
        { s with annotations := s.annotations.insert n v } := by
      unfold AnnotationSet.add_default
      rw [h]
    have hget : (s.add_default n v).annotations.get n = some v := by
      rw [hset]
      exact (AMap.get_insert _ _ _ _).trans (if_pos rfl)
    refine ⟨hget, ?_, ?_⟩
    · intro k hk
      rw [hset]
      exact (AMap.get_insert _ _ _ _).trans (if_neg (fun hh => hk hh.symm))
    · exact hpresent _ w (by rw [hget]; simp)
  · exact hpresent s v

/-- C5, witness: a default for a vacant name is stored; a second default
for the same name, and a default for a name set by an explicit directive,
change nothing. -/
theorem c5_add_default_witness :
    (AnnotationSet.new.add_default "x".data
        (AnnotationValue.Bool false)).annotations.get "x".data =
      some (AnnotationValue.Bool false) ∧
    (AnnotationSet.new.add_default "x".data
        (AnnotationValue.Bool false)).add_default "x".data
        (AnnotationValue.Bool true) =
      AnnotationSet.new.add_default "x".data (AnnotationValue.Bool false) ∧
    listSet.add_default "field-names".data (AnnotationValue.Bool true) =
      listSet :=
  ⟨((c5_add_default AnnotationSet.new "x".data (AnnotationValue.Bool false)
      (AnnotationValue.Bool true)).1 rfl).1,
   ((c5_add_default AnnotationSet.new "x".data (AnnotationValue.Bool false)
      (AnnotationValue.Bool true)).1 rfl).2.2,
   (c5_add_default listSet "field-names".data (AnnotationValue.Bool true)
      (AnnotationValue.Bool true)).2 (by decide)⟩

/-- C6: each typed accessor answers `some` exactly when the stored variant
is its own tag (with the stored payload), and an unset name yields `none`
from all three; a tag mismatch yields `none`, never a coercion. -/
theorem c6_typed_accessors (s : AnnotationSet) (n : Str) :
    (∀ xs, s.list n = some xs ↔
      s.annotations.get n = some (AnnotationValue.List xs)) ∧
    (∀ x, s.atom n = some x ↔
      s.annotations.get n = some (AnnotationValue.Atom x)) ∧
    (∀ b, s.bool n = some b ↔
      s.annotations.get n = some (AnnotationValue.Bool b)) ∧
    (s.annotations.get n = none →
      s.list n = none ∧ s.atom n = none ∧ s.bool n = none) := by
  unfold AnnotationSet.list AnnotationSet.atom AnnotationSet.bool
  cases hg : s.annotations.get n with
  | none => simp
  | some v => cases v <;> simp

/-- C6, witness: a stored list is answered by `list`, and an unset name is
absent from all three accessors. -/
theorem c6_typed_accessors_witness :
    listSet.list "field-names".data =
      some ["mHandle".data, "mNamespace".data] ∧
    AnnotationSet.new.list "x".data = none ∧
    AnnotationSet.new.atom "x".data = none ∧
    AnnotationSet.new.bool "x".data = none :=
  ⟨((c6_typed_accessors listSet "field-names".data).1
      ["mHandle".data, "mNamespace".data]).mpr (by decide),
   ((c6_typed_accessors AnnotationSet.new "x".data).2.2.2 rfl).1,
   ((c6_typed_accessors AnnotationSet.new "x".data).2.2.2 rfl).2.1,
   ((c6_typed_accessors AnnotationSet.new "x".data).2.2.2 rfl).2.2⟩

/-- C7: `parse_atom` yields the caller type's default for a stored atom
with no text, faults unconditionally (the modelled panic) for atom text
that fails conversion, succeeds with the converted value otherwise, and
yields absence without fault for an unset name or a non-atom variant. -/
theorem c7_parse_atom_spec {T : Type} (dflt : T) (fromStr : Str → Option T)
    (s : AnnotationSet) (n : Str) :
    (s.annotations.get n = some (AnnotationValue.Atom none) →
      s.parse_atom dflt fromStr n = Except.ok (some dflt)) ∧
    (∀ y, s.annotations.get n = some (AnnotationValue.Atom (some y)) →
      fromStr y = none →
      s.parse_atom dflt fromStr n = Except.error AtomFault.panic) ∧
    (∀ y t, s.annotations.get n = some (AnnotationValue.Atom (some y)) →
      fromStr y = some t →
      s.parse_atom dflt fromStr n = Except.ok (some t)) ∧
    (s.annotations.get n = none →
      s.parse_atom dflt fromStr n = Except.ok none) ∧
    (∀ xs, s.annotations.get n = some (AnnotationValue.List xs) →
      s.parse_atom dflt fromStr n = Except.ok none) ∧
    (∀ b, s.annotations.get n = some (AnnotationValue.Bool b) →
      s.parse_atom dflt fromStr n = Except.ok none) := by
  unfold AnnotationSet.parse_atom
  cases hg : s.annotations.get n with
  | none => simp
  | some v =>
    cases v with
    | List xs => simp
    | Bool b => simp
    | Atom x =>
      cases x with
      | none => simp
      | some y =>
        refine ⟨by simp, ?_, ?_, by simp, by simp, by simp⟩
        · intro y2 hy2 hf
          simp only [Option.some_inj, AnnotationValue.Atom.injEq] at hy2
          rw [← hy2] at hf
          dsimp only
          rw [hf]
        · intro y2 t hy2 hf
          simp only [Option.some_inj, AnnotationValue.Atom.injEq] at hy2
          rw [← hy2] at hf
          dsimp only
          rw [hf]

/-- C7, witness: the empty atom yields the default, the atom `z` (which the
concrete conversion rejects) panics, the atom `1` converts, and an unset
name is absent without fault. -/
theorem c7_parse_atom_spec_witness :
    atomSet.parse_atom 0 natFromStr "c".data = Except.ok (some 0) ∧
    atomSet.parse_atom 0 natFromStr "b".data =
      Except.error AtomFault.panic ∧
    atomSet.parse_atom 0 natFromStr "a".data = Except.ok (some 1) ∧
    atomSet.parse_atom 0 natFromStr "w".data = Except.ok none :=
  ⟨(c7_parse_atom_spec 0 natFromStr atomSet "c".data).1 (by decide),
   (c7_parse_atom_spec 0 natFromStr atomSet "b".data).2.1
      "z".data (by decide) (by decide),
   (c7_parse_atom_spec 0 natFromStr atomSet "a".data).2.2.1
      "1".data 1 (by decide) (by decide),
   (c7_parse_atom_spec 0 natFromStr atomSet "w".data).2.2.2.1 (by decide)⟩

/-- C8: directives are processed in source order with overwriting
insertion: on a successful construction, the stored value for any name is
the one parsed from the last kept line carrying that name (absent when no
kept line does). -/
theorem c8_last_wins (a : AttrInput) (s : AnnotationSet)
    (h : load a = Except.ok s) (n : Str) :
    s.annotations.get n = lastVal n (scanLines a.commentLines) := by
  have hp := load_ok_annotations a s h
  have hlast := processLines_last (scanLines a.commentLines) [] s.annotations hp n
  cases hl : lastVal n (scanLines a.commentLines) with
  | some v =>
    rw [hl] at hlast
    exact hlast
  | none =>
    rw [hl] at hlast
    exact hlast

/-- C8, witness: the declaration repeating `x` stores the value of the
second (last) occurrence. -/
theorem c8_last_wins_witness :
    repeatSet.annotations.get "x".data =
      lastVal "x".data (scanLines repeatInput.commentLines) ∧
    repeatSet.annotations.get "x".data =
      some (AnnotationValue.Atom (some "2".data)) :=
  ⟨c8_last_wins repeatInput repeatSet rfl "x".data, by decide⟩

/-- C9, counterexample to the claim as stated: the accepted comment line
consisting of the bare marker `cbindgen:` yields a mapping entry whose
name is the empty string. -/
theorem c9_counterexample :
    load bareMarkerInput = Except.ok bareMarkerSet ∧
    bareMarkerSet.annotations.get [] = some (AnnotationValue.Bool true) :=
  ⟨rfl, rfl⟩

/-- C9 (amended): every key of a constructed set's mapping is the trimmed
text before the first `=` separator of the stripped directive of some
accepted line; such a key may be the empty string (a line that is just the
marker, or whose directive starts with `=`, yields the empty-string key),
so keys are not always non-empty. -/
theorem c9_key_provenance (a : AttrInput) (s : AnnotationSet)
    (h : load a = Except.ok s) (k : Str)
    (hk : s.annotations.get k ≠ none) :
    ∃ line ∈ scanLines a.commentLines,
      k = trim ((splitChar '=' (line.drop 9)).headI) := by
  have hp := load_ok_annotations a s h
  rcases processLines_keys (scanLines a.commentLines) [] s.annotations hp k hk
    with hin | ⟨line, hl, v, hv⟩
  · exact absurd rfl hin
  · exact ⟨line, hl, parseDirective_name _ _ _ hv⟩

/-- C9, witness: the empty-string key of the bare-marker declaration is
the trimmed name part of its one accepted line. -/
theorem c9_key_provenance_witness :
    load bareMarkerInput = Except.ok bareMarkerSet ∧
    bareMarkerSet.annotations.get [] ≠ none ∧
    ∃ line ∈ scanLines bareMarkerInput.commentLines,
      ([] : Str) = trim ((splitChar '=' (line.drop 9)).headI) :=
  ⟨rfl, by decide,
   c9_key_provenance bareMarkerInput bareMarkerSet rfl [] (by decide)⟩

/-- C10, counterexample to the claim as stated: `add_default` stores its
argument unchecked, so an empty `List` value can be stored and `list` can
return an empty list. -/
theorem c10_counterexample :
    (AnnotationSet.new.add_default "x".data
        (AnnotationValue.List [])).list "x".data = some [] :=
  rfl

/-- C10 (amended): every `List` value stored by construction from
directives has at least one element — lexical splitting of a bracketed
value always yields at least one segment, so the directive value `[]` is
stored as a list holding exactly the empty string — and `list` on a
freshly constructed set never returns an empty list; `add_default` can,
however, store an arbitrary (possibly empty) list afterwards. -/
theorem c10_load_lists_nonempty (a : AttrInput) (s : AnnotationSet)
    (h : load a = Except.ok s) (n : Str) (xs : List Str)
    (hx : s.list n = some xs) : xs ≠ [] := by
  have hget : s.annotations.get n = some (AnnotationValue.List xs) := by
    unfold AnnotationSet.list at hx
    cases hg : s.annotations.get n with
    | none =>
      rw [hg] at hx
      exact absurd hx (by simp)
    | some v =>
      rw [hg] at hx
      cases v with
      | List ys =>
        simp only [Option.some_inj] at hx
        rw [hx]
      | Atom x => exact absurd hx (by simp)
      | Bool b => exact absurd hx (by simp)
  exact processLines_list_values (scanLines a.commentLines) [] s.annotations
    (load_ok_annotations a s h) (fun n1 xs1 h1 => absurd h1 (by simp [AMap.get]))
    n xs hget

/-- C10, witness: the directive `x=[]` is accepted and stored as the
one-element list holding the empty string, which is non-empty. -/
theorem c10_load_lists_nonempty_witness :
    load emptyListInput = Except.ok emptyListSet ∧
    emptyListSet.list "x".data = some [[]] ∧
    ([[]] : List Str) ≠ [] :=
  ⟨rfl, rfl,
   c10_load_lists_nonempty emptyListInput emptyListSet rfl "x".data [[]] rfl⟩
